import Mathlib

/-!
Verification of the Noticias-FCT kiosk applications.

The repository contains several near-duplicate Python programs
(noticias-v2.py, painel.py, painel1-sem-carregamento.py,
painel2-com-carregamento-atualizacoes.py) that poll an RSS feed and turn
each entry into a display slide.  This file gives a shallow embedding of
the feed-ingestion and slide-materialisation pipeline of those programs.

Python strings are modelled as lists of characters (type Str below).
Library calls whose behaviour the programs rely on (str.replace,
str.strip, re.sub, str.rfind, urllib.parse.urljoin, datetime.strptime,
the qrcode pipeline, and the BeautifulSoup accessors) are modelled as
Lean functions that follow the documented semantics of those library
functions on the inputs the programs feed them; each such model carries a
doc comment stating its scope.  HTML parsing itself (BeautifulSoup) is
external: a raw feed entry carries the parse results that the code reads
from the soup (the attribute list of the first img element and the texts
of the p elements).
-/

abbrev Str := List Char

/-- Characters matched by the Python regex class for whitespace and
stripped by str.strip for the ASCII inputs handled here: space, tab,
newline, carriage return, vertical tab and form feed. -/
def isPySpace (c : Char) : Bool :=
  c = ' ' ∨ c = '\t' ∨ c = '\n' ∨ c = '\r' ∨ c = '\x0b' ∨ c = '\x0c'

/-- One step of trailing-whitespace removal: put c back in front of an
already trimmed tail, dropping it when the tail vanished and c is
whitespace. -/
def consTrail (c : Char) (r : Str) : Str :=
  match r with
  | [] => if isPySpace c then [] else [c]
  | _ => c :: r

/-- Remove the trailing run of whitespace characters.  Together with
List.dropWhile this models Python str.strip. -/
def dropTrailWS : Str → Str
  | [] => []
  | c :: s => consTrail c (dropTrailWS s)

/-- Model of Python str.strip (for the ASCII whitespace of isPySpace):
drop the leading and the trailing whitespace runs. -/
def pyStrip (s : Str) : Str :=
  dropTrailWS (s.dropWhile isPySpace)

/-- Model of re.sub applied with the whitespace-run pattern and a single
space as replacement: every maximal run of whitespace characters becomes
one space character. -/
def collapseWS : Str → Str
  | [] => []
  | [c] => if isPySpace c then [' '] else [c]
  | c :: d :: s =>
    if isPySpace c then
      if isPySpace d then collapseWS (d :: s)
      else ' ' :: collapseWS (d :: s)
    else c :: collapseWS (d :: s)

/-- clean_text of noticias-v2.py and painel1-sem-carregamento.py,
restricted to markup-free input, on which BeautifulSoup get_text with a
space separator and strip=True returns the stripped input text: the
empty-input guard, then get_text (a strip), then the whitespace-run
substitution, then the final strip. -/
def clean_text (html_content : Str) : Str :=
  if html_content = [] then []
  else pyStrip (collapseWS (pyStrip html_content))

/-- Model of Python str.rfind for a single character: the highest index
holding the character, or none.  The code compares the result against 0,
so the -1 failure value is modelled by none. -/
def rfindChar (ch : Char) : Str → Option Nat
  | [] => none
  | c :: s =>
    match rfindChar ch s with
    | some j => some (j + 1)
    | none => if c = ch then some 0 else none

/-- truncate_text of noticias-v2.py and painel1-sem-carregamento.py:
texts within the limit are returned unchanged; otherwise the text is cut
at the limit, the cut is moved back to the last space when one exists at
a positive index, and an ellipsis is appended. -/
def truncate_text (text : Str) (limit : Nat) : Str :=
  if text.length ≤ limit then text
  else
    let truncated := text.take limit
    match rfindChar ' ' truncated with
    | some last_space =>
      if 0 < last_space then truncated.take last_space ++ "...".data
      else truncated ++ "...".data
    | none => truncated ++ "...".data

example : truncate_text "ab cd ef".data 5 = "ab...".data := by decide
example : truncate_text "abcdef".data 4 = "abcd...".data := by decide
example : clean_text "  a \t b  ".data = "a b".data := by decide
example : clean_text "".data = "".data := by decide

/-- Worker for pyReplace.  It scans the text one character at a time;
skip counts characters of an already matched occurrence that remain to
be consumed, during which no new match is attempted, exactly as Python
resumes scanning after a replaced occurrence. -/
def pyReplaceGo (old rep : Str) : Nat → Str → Str
  | _, [] => []
  | k + 1, _ :: s => pyReplaceGo old rep k s
  | 0, c :: s =>
    if old.isPrefixOf (c :: s) ∧ old ≠ [] then
      rep ++ pyReplaceGo old rep (old.length - 1) s
    else c :: pyReplaceGo old rep 0 s

/-- Model of Python str.replace for a nonempty pattern (the only way the
programs call it): every leftmost non-overlapping occurrence of old is
replaced by rep, scanning left to right. -/
def pyReplace (old rep s : Str) : Str :=
  pyReplaceGo old rep 0 s

/-- Substring test: does old occur contiguously inside s?  Used to state
when pyReplace leaves a string unchanged. -/
def containsSub (old : Str) : Str → Bool
  | [] => old.isPrefixOf []
  | c :: s => old.isPrefixOf (c :: s) || containsSub old s

/-- fix_image_url of noticias-v2.py and painel1-sem-carregamento.py: on
a URL starting with either double-prefix pattern, delete every
occurrence of the http domain and then every occurrence of the https
domain; other URLs pass through unchanged. -/
def fix_image_url (url : Str) : Str :=
  if "http://fct.ufg.brhttps:".data.isPrefixOf url
      ∨ "https://fct.ufg.brhttps:".data.isPrefixOf url then
    pyReplace "https://fct.ufg.br".data []
      (pyReplace "http://fct.ufg.br".data [] url)
  else url

/-- Characters allowed after the leading letter of a URL scheme. -/
def isSchemeChar (c : Char) : Bool :=
  c.isAlpha || c.isDigit || c = '+' || c = '-' || c = '.'

/-- Scan the characters after the leading letter of a candidate scheme:
some run when a colon terminates a run of scheme characters, none
otherwise. -/
def schemeScan : Str → Option Str
  | [] => none
  | c :: rest =>
    if c = ':' then some []
    else if isSchemeChar c then (schemeScan rest).map (fun s => c :: s)
    else none

/-- Model of the scheme detection of urllib.parse.urlparse: a leading
ASCII letter followed by letters, digits, plus, minus or dot up to a
colon gives the lowercased scheme; any other shape gives none. -/
def schemeOf (url : Str) : Option Str :=
  match url with
  | [] => none
  | c :: rest =>
    if c.isAlpha then (schemeScan rest).map (fun s => (c :: s).map Char.toLower)
    else none

/-- No query and no fragment markers anywhere in the reference. -/
def noQueryFragment (url : Str) : Bool := url.all fun c => !(c == '?' || c == '#')

/-- No slash-separated segment of the reference is a dot or a double
dot, the segments urljoin would resolve away. -/
def noDotSegments (url : Str) : Bool :=
  (url.splitOn '/').all fun seg => !(seg == ".".data || seg == "..".data)

/-- A protocol-relative reference must carry a nonempty authority;
otherwise urljoin falls back to the base authority instead of keeping
the reference verbatim. -/
def protRelOk : Str → Bool
  | '/' :: '/' :: rest =>
    match rest with
    | [] => false
    | c :: _ => !(c == '/')
  | _ => true

/-- Model of urllib.parse.urljoin with the fixed base
https://fct.ufg.br (empty base path), as called by painel.py.  It is
exact on two classes of reference: a reference whose scheme differs
from https, which urljoin returns unchanged, and a scheme-less
reference without query, fragment or dot segments and with a nonempty
authority when protocol-relative, which resolves under the base
domain.  Same-scheme shorthand references (https:foo) and references
with query, fragment, dot segments or an empty authority are outside
the scope of this model. -/
def urljoin_fct (url : Str) : Str :=
  if url = [] then "https://fct.ufg.br".data
  else if (schemeOf url).isSome then url
  else if "//".data.isPrefixOf url then "https:".data ++ url
  else if "/".data.isPrefixOf url then "https://fct.ufg.br".data ++ url
  else "https://fct.ufg.br/".data ++ url

/-- The final scheme check of corrigir_url_imagem of painel.py, applied
to the URL after the malformed-URL step: a URL still lacking an http or
https scheme is resolved against the base URL. -/
def corrigir_resolve (url2 : Str) : Str :=
  if ¬ ("http://".data.isPrefixOf url2 ∨ "https://".data.isPrefixOf url2) then
    urljoin_fct url2
  else url2

/-- corrigir_url_imagem of painel.py: empty URLs become the placeholder
path, a URL with the http double-prefix pattern has every occurrence of
the http domain deleted, and the result goes through the scheme
check. -/
def corrigir_url_imagem (url : Str) : Str :=
  if url = [] then "assets/placeholder.png".data
  else
    corrigir_resolve
      (if "http://fct.ufg.brhttps://".data.isPrefixOf url then
        pyReplace "http://fct.ufg.br".data [] url
      else url)

example :
    fix_image_url "http://fct.ufg.brhttps://cdn.example.com/a.jpg".data
      = "https://cdn.example.com/a.jpg".data := by decide
example :
    fix_image_url "http://fct.ufg.brhttps://fct.ufg.br/a.jpg".data
      = "/a.jpg".data := by decide
example :
    corrigir_url_imagem "/img/a.jpg".data
      = "https://fct.ufg.br/img/a.jpg".data := by decide
example :
    corrigir_url_imagem "https://fct.ufg.brhttps://cdn.example.com/a.jpg".data
      = "https://fct.ufg.brhttps://cdn.example.com/a.jpg".data := by decide
example : corrigir_url_imagem "".data = "assets/placeholder.png".data := by decide
example :
    corrigir_url_imagem "ftp://example.com/x".data = "ftp://example.com/x".data := by
  decide
example :
    corrigir_url_imagem "data:image/png;base64,xyz".data
      = "data:image/png;base64,xyz".data := by decide
example :
    corrigir_url_imagem "//cdn.example.com/a.jpg".data
      = "https://cdn.example.com/a.jpg".data := by decide

/-! Date formatting (formatar_data of painel.py). -/

structure FeedDate where
  year : Nat
  month : Nat
  day : Nat
  hour : Nat
  minute : Nat
  second : Nat
deriving DecidableEq, Repr

def digitVal (c : Char) : Nat := c.toNat - '0'.toNat

/-- Consume one mandatory whitespace run, as the compiled strptime
pattern does for a space in the format string. -/
def eatWS (s : Str) : Option Str :=
  match s with
  | c :: s2 => if isPySpace c then some (s2.dropWhile isPySpace) else none
  | [] => none

def eatChar (ch : Char) (s : Str) : Option Str :=
  match s with
  | c :: s2 => if c = ch then some s2 else none
  | [] => none

/-- Read a one or two digit number.  valid2 constrains the two-digit
reading; when it fails, the directive cannot match, because in the
format used here every number directive is followed by a separator that
is never a digit, so the regex cannot fall back to a one-digit match
followed by a digit. -/
def eatNum2or1 (valid2 : Nat → Bool) (valid1 : Nat → Bool) (s : Str) :
    Option (Nat × Str) :=
  match s with
  | a :: b :: rest =>
    if a.isDigit ∧ b.isDigit then
      let v := 10 * digitVal a + digitVal b
      if valid2 v then some (v, rest) else none
    else if a.isDigit ∧ valid1 (digitVal a) then some (digitVal a, b :: rest)
    else none
  | [a] => if a.isDigit ∧ valid1 (digitVal a) then some (digitVal a, []) else none
  | [] => none

def eat4Digits (s : Str) : Option (Nat × Str) :=
  match s with
  | a :: b :: c :: d :: rest =>
    if a.isDigit ∧ b.isDigit ∧ c.isDigit ∧ d.isDigit then
      some (1000 * digitVal a + 100 * digitVal b + 10 * digitVal c + digitVal d, rest)
    else none
  | _ => none

def lowerStr (s : Str) : Str := s.map Char.toLower

def weekdayAbbrs : List Str :=
  ["mon".data, "tue".data, "wed".data, "thu".data, "fri".data, "sat".data, "sun".data]

def monthAbbrs : List Str :=
  ["jan".data, "feb".data, "mar".data, "apr".data, "may".data, "jun".data,
   "jul".data, "aug".data, "sep".data, "oct".data, "nov".data, "dec".data]

def monthOfAbbr (s : Str) : Option Nat :=
  match List.findIdx? (fun m => m = lowerStr s) monthAbbrs with
  | some i => some (i + 1)
  | none => none

/-- UTC-offset directive: the letter Z, or a sign followed by two digit
pairs with an optional colon; the offset must stay below one day, as the
timezone constructor requires.  Offsets carrying seconds or fractions
are outside the scope of this model. -/
def eatTZ (s : Str) : Option Str :=
  match s with
  | 'Z' :: rest => some rest
  | sign :: a :: b :: rest =>
    if (sign = '+' ∨ sign = '-') ∧ a.isDigit ∧ b.isDigit then
      let rest2 := match rest with
        | ':' :: r => r
        | r => r
      match rest2 with
      | c :: d :: rest3 =>
        if c.isDigit ∧ d.isDigit ∧
            (10 * digitVal a + digitVal b) * 60 + (10 * digitVal c + digitVal d) < 1440
        then some rest3 else none
      | _ => none
    else none
  | _ => none

def isLeapYear (y : Nat) : Bool := y % 4 = 0 ∧ (y % 100 ≠ 0 ∨ y % 400 = 0)

def daysInMonth (y m : Nat) : Nat :=
  if m = 2 then (if isLeapYear y then 29 else 28)
  else if m = 4 ∨ m = 6 ∨ m = 9 ∨ m = 11 then 30
  else 31

/-- Weekday directive and following comma of the feed format. -/
def eatWeekday (s : Str) : Option Str :=
  if lowerStr (s.take 3) ∈ weekdayAbbrs then eatChar ',' (s.drop 3) else none

/-- Day, month abbreviation and year of the feed format, each preceded
by a whitespace run. -/
def eatDate (s : Str) : Option (Nat × Nat × Nat × Str) :=
  (eatWS s).bind fun s1 =>
  (eatNum2or1 (fun v => 1 ≤ v ∧ v ≤ 31) (fun v => 1 ≤ v) s1).bind fun (day, s2) =>
  (eatWS s2).bind fun s3 =>
  (monthOfAbbr (s3.take 3)).bind fun month =>
  (eatWS (s3.drop 3)).bind fun s4 =>
  (eat4Digits s4).map fun (year, s5) => (day, month, year, s5)

/-- Hour, minute and second of the feed format, colon separated. -/
def eatTime (s : Str) : Option (Nat × Nat × Nat × Str) :=
  (eatNum2or1 (fun v => v ≤ 23) (fun _ => true) s).bind fun (hour, s1) =>
  (eatChar ':' s1).bind fun s2 =>
  (eatNum2or1 (fun v => v ≤ 59) (fun _ => true) s2).bind fun (minute, s3) =>
  (eatChar ':' s3).bind fun s4 =>
  (eatNum2or1 (fun v => v ≤ 59) (fun _ => true) s4).map fun (second, s5) =>
    (hour, minute, second, s5)

/-- Model of datetime.strptime with the feed format (weekday
abbreviation, comma, day, month abbreviation, year, time, UTC offset)
followed by the datetime constructor validation, under the C locale for
the month and weekday names.  Failure of any step gives none, which the
caller maps to returning the raw string. -/
def parsePubDate (s : Str) : Option FeedDate :=
  (eatWeekday s).bind fun s1 =>
  (eatDate s1).bind fun (day, month, year, s2) =>
  (eatWS s2).bind fun s2b =>
  (eatTime s2b).bind fun (hour, minute, second, s3) =>
  (eatWS s3).bind fun s4 =>
  (eatTZ s4).bind fun s5 =>
  if s5 = [] ∧ 1 ≤ year ∧ day ≤ daysInMonth year month then
    some ⟨year, month, day, hour, minute, second⟩
  else none

def monthNamesBR : List Str :=
  ["janeiro".data, "fevereiro".data, "março".data, "abril".data, "maio".data,
   "junho".data, "julho".data, "agosto".data, "setembro".data, "outubro".data,
   "novembro".data, "dezembro".data]

def pad2 (n : Nat) : Str :=
  if n < 10 then '0' :: (toString n).data else (toString n).data

/-- strftime with the display format of painel.py (day, full month name,
year, hour and minute), with the pt-BR month names the code configures;
when that locale is unavailable the code falls back to English names,
which changes only the name table. -/
def formatDataBR (d : FeedDate) : Str :=
  pad2 d.day ++ " de ".data ++ (monthNamesBR.getD (d.month - 1) []) ++ " de ".data
    ++ (toString d.year).data ++ " às ".data ++ pad2 d.hour ++ ":".data ++ pad2 d.minute

/-- formatar_data of painel.py: format the parsed date, or return the
input string unchanged when parsing or validation fails. -/
def formatar_data (data_str : Str) : Str :=
  match parsePubDate data_str with
  | some d => formatDataBR d
  | none => data_str

example :
    formatar_data "Wed, 02 Oct 2024 10:00:00 +0000".data
      = "02 de outubro de 2024 às 10:00".data := by decide
example : formatar_data "not a date".data = "not a date".data := by decide
example :
    formatar_data "Fri, 31 Feb 2024 10:00:00 +0000".data
      = "Fri, 31 Feb 2024 10:00:00 +0000".data := by decide

/-! QR-code generation (gerar_qr_code of painel.py). -/

inductive PyErr where
  | keyError
  | attributeError
  | networkError
  | qrError
deriving DecidableEq, Repr

deriving instance DecidableEq for Except

def exceptOk {ε α : Type} (x : Except ε α) : Bool :=
  match x with
  | .ok _ => true
  | .error _ => false

/-- Model of the qrcode library pipeline (add_data, make with fit,
make_image, save): it succeeds for every payload that fits the largest
QR symbol, whose byte capacity at the low error-correction level is
2953, counting one byte per character for the ASCII links the feed
carries.  The empty payload is accepted and encodes an empty byte
sequence. -/
def qr_encode (url : Str) : Except PyErr Str :=
  if url.length ≤ 2953 then .ok url else .error .qrError

/-- File path used by gerar_qr_code for the slide with index news_id. -/
def qrPath (news_id : Nat) : Str :=
  "qrcodes/qr_".data ++ (toString news_id).data ++ ".png".data

/-- gerar_qr_code of painel.py: build and save the QR image, returning
its path; any failure is caught, logged and mapped to the empty
string. -/
def gerar_qr_code (url : Str) (news_id : Nat) : Str :=
  match qr_encode url with
  | .ok _ => qrPath news_id
  | .error _ => []

example : gerar_qr_code "".data 0 = "qrcodes/qr_0.png".data := by decide

/-! Feed entries and the two materialisation pipelines.

A raw entry carries the feedparser fields that the programs read
(title, description, link, published), each optional because the feed
guarantees nothing, together with the BeautifulSoup parse results of
its description that the code consumes: the attribute list of the
first img element, if any, and the texts of the p elements. -/

structure RawEntry where
  title : Option Str
  description : Option Str
  link : Option Str
  published : Option Str
  firstImg : Option (List (Str × Str))
  paragraphs : List Str
deriving DecidableEq, Repr

/-- Model of dict-style attribute lookup (Tag.get of BeautifulSoup):
the value of the first binding of the key, if any. -/
def attrGet : List (Str × Str) → Str → Option Str
  | [], _ => none
  | (k, v) :: rest, key => if k = key then some v else attrGet rest key

/-- extract_image of noticias-v2.py and painel1-sem-carregamento.py,
taking the first img element of the parsed description: the src
attribute must be present and truthy (nonempty) for an image to be
extracted, and the extracted URL is repaired by fix_image_url. -/
def extract_image (firstImg : Option (List (Str × Str))) : Option Str :=
  match firstImg with
  | none => none
  | some attrs =>
    match attrGet attrs "src".data with
    | some src => if src = [] then none else some (fix_image_url src)
    | none => none

/-- One processed entry of noticias-v2.py. -/
structure ProcEntry where
  title : Str
  description : Str
  link : Str
  image_url : Option Str
deriving DecidableEq, Repr

/-- The per-entry body of NewsDownloader.run of noticias-v2.py: title
and description are cleaned and truncated with the configured limits,
missing fields default to the empty string. -/
def process_entry (e : RawEntry) : ProcEntry :=
  { title := truncate_text (clean_text (e.title.getD [])) 80
  , description := truncate_text (clean_text (e.description.getD [])) 800
  , link := e.link.getD []
  , image_url := extract_image e.firstImg }

/-- NewsDownloader.run of noticias-v2.py.  The input is the outcome of
the guarded block up to and including the feed parse; the processing
loop itself is total.  On any failure the handler logs and emits the
empty list. -/
def NewsDownloader_run (parseResult : Except PyErr (List RawEntry)) : List ProcEntry :=
  match parseResult with
  | .ok entries => entries.map process_entry
  | .error _ => []

/-- The inline content truncation of extrair_conteudo_principal of
painel.py: a hard cut at 1000 characters plus an ellipsis. -/
def painelTruncate (s : Str) : Str :=
  if 1000 < s.length then s.take 1000 ++ "...".data else s

/-- The inline title truncation of carregar_noticias of painel.py: a
hard cut at 80 characters plus an ellipsis. -/
def painelTitulo (t : Str) : Str :=
  if t.length ≤ 80 then t else t.take 80 ++ "...".data

/-- The paragraph filter of extrair_conteudo_principal: keep paragraphs
that are nonempty after stripping and contain neither marker in their
lowercased text. -/
def keepParagraph (p : Str) : Bool :=
  pyStrip p ≠ [] ∧ containsSub "texto:".data (lowerStr p) = false
    ∧ containsSub "foto:".data (lowerStr p) = false

/-- extrair_conteudo_principal of painel.py on the parse results of the
description.  Reading the src attribute of an img element that lacks it
raises KeyError, modelled as an error; otherwise the first five kept
paragraph texts are stripped, joined with single spaces and hard
truncated. -/
def extrair_conteudo_principal (firstImg : Option (List (Str × Str)))
    (paragraphs : List Str) : Except PyErr (Str × Option Str) :=
  match firstImg with
  | some attrs =>
    match attrGet attrs "src".data with
    | none => .error .keyError
    | some src =>
      .ok (painelTruncate
            (List.intercalate [' '] (((paragraphs.filter keepParagraph).map pyStrip).take 5)),
          some (corrigir_url_imagem src))
  | none =>
    .ok (painelTruncate
          (List.intercalate [' '] (((paragraphs.filter keepParagraph).map pyStrip).take 5)),
        none)

/-- One slide record of painel.py (the NewsItem constructor
arguments). -/
structure SlideItem where
  title : Str
  content : Str
  image_source : Str
  pub_date : Str
  qr_code : Str
deriving DecidableEq, Repr

/-- The per-entry body of carregar_noticias of painel.py: content and
image come from extrair_conteudo_principal, the title and link
attribute reads raise AttributeError when the field is missing, the
publish date is formatted only when present, a falsy image URL becomes
the placeholder, and the QR path is generated from the link. -/
def painel_process (idx : Nat) (e : RawEntry) : Except PyErr SlideItem :=
  (extrair_conteudo_principal e.firstImg e.paragraphs).bind fun (conteudo, img_url) =>
  ((match e.title with
    | none => .error .attributeError
    | some t => .ok t : Except PyErr Str)).bind fun t =>
  ((match e.link with
    | none => .error .attributeError
    | some l => .ok l : Except PyErr Str)).bind fun link =>
  .ok { title := painelTitulo t
      , content := conteudo
      , image_source :=
          match img_url with
          | none => "assets/placeholder.png".data
          | some u => if u = [] then "assets/placeholder.png".data else u
      , pub_date :=
          match e.published with
          | none => []
          | some p => formatar_data p
      , qr_code := gerar_qr_code link idx }

/-- The guarded block of carregar_noticias up to the point where the
processed list is complete: the feed parse outcome, then the first five
entries processed in order with their indices. -/
def carregar_result (parseResult : Except PyErr (List RawEntry)) :
    Except PyErr (List SlideItem) :=
  parseResult.bind fun entries =>
    (entries.take 5).enum.mapM fun (i, e) => painel_process i e

/-- The carousel state touched by carregar_noticias: the news_items
property and the slide widgets, the latter modelled by the items they
render. -/
structure CarouselState where
  news_items : List SlideItem
  slides : List SlideItem
deriving DecidableEq, Repr

/-- carregar_noticias of painel.py: on success the processed list
replaces news_items and the slides are rebuilt from it; any exception
inside the guarded block is caught and logged, leaving the state
untouched. -/
def carregar_noticias (st : CarouselState)
    (parseResult : Except PyErr (List RawEntry)) : CarouselState :=
  match carregar_result parseResult with
  | .ok items => { news_items := items, slides := items }
  | .error _ => st

/-! Helper lemmas on isPrefixOf and pyReplace. -/

lemma isPrefixOf_nil_left (b : Str) : List.isPrefixOf ([] : Str) b = true := by
  simp [List.isPrefixOf]

lemma isPrefixOf_append_self (a b : Str) : a.isPrefixOf (a ++ b) = true := by
  induction a with
  | nil => simp [List.isPrefixOf]
  | cons x a ih => simp [List.isPrefixOf, ih]

lemma isPrefixOf_append_cancel (a b c : Str) :
    (a ++ b).isPrefixOf (a ++ c) = b.isPrefixOf c := by
  induction a with
  | nil => rfl
  | cons x a ih => simp [List.isPrefixOf, ih]

lemma isPrefixOf_trans (a b c : Str) (h1 : a.isPrefixOf b = true)
    (h2 : b.isPrefixOf c = true) : a.isPrefixOf c = true := by
  induction a generalizing b c with
  | nil => simp [List.isPrefixOf]
  | cons x a ih =>
    cases b with
    | nil => simp [List.isPrefixOf] at h1
    | cons y b =>
      cases c with
      | nil => simp [List.isPrefixOf] at h2
      | cons z c =>
        simp only [List.isPrefixOf, Bool.and_eq_true, beq_iff_eq] at h1 h2 ⊢
        exact ⟨h1.1.trans h2.1, ih b c h1.2 h2.2⟩

lemma isPrefixOf_append_false (old pre s : Str)
    (h1 : old.isPrefixOf pre = false) (h2 : pre.isPrefixOf old = false) :
    old.isPrefixOf (pre ++ s) = false := by
  induction old generalizing pre with
  | nil => simp [List.isPrefixOf] at h1
  | cons o os ih =>
    cases pre with
    | nil => simp [List.isPrefixOf] at h2
    | cons c pre =>
      simp only [List.cons_append, List.isPrefixOf, Bool.and_eq_false_iff,
        beq_eq_false_iff_ne, ne_eq] at h1 h2 ⊢
      rcases h1 with h1 | h1
      · exact Or.inl h1
      · rcases h2 with h2 | h2
        · exact Or.inl (fun e => h2 e.symm)
        · exact Or.inr (ih pre h1 h2)

lemma pyReplaceGo_skip (old rep : Str) (l t : Str) :
    pyReplaceGo old rep l.length (l ++ t) = pyReplaceGo old rep 0 t := by
  induction l with
  | nil => rfl
  | cons c l ih => simpa [pyReplaceGo] using ih

lemma pyReplace_head_match (old rep t : Str) (h : old ≠ []) :
    pyReplace old rep (old ++ t) = rep ++ pyReplace old rep t := by
  cases old with
  | nil => exact absurd rfl h
  | cons o os =>
    show pyReplaceGo (o :: os) rep 0 ((o :: os) ++ t)
      = rep ++ pyReplaceGo (o :: os) rep 0 t
    rw [List.cons_append]
    have hc : (o :: os).isPrefixOf (o :: (os ++ t)) = true := by
      rw [← List.cons_append]; exact isPrefixOf_append_self _ _
    simp only [pyReplaceGo, hc, ne_eq, reduceCtorEq, not_false_eq_true, and_true,
      if_pos trivial, List.length_cons, Nat.add_sub_cancel]
    rw [pyReplaceGo_skip (o :: os) rep os t]

lemma pyReplace_no_occurrence (old rep s : Str) (h : containsSub old s = false) :
    pyReplace old rep s = s := by
  induction s with
  | nil => rfl
  | cons c s ih =>
    simp only [containsSub, Bool.or_eq_false_iff] at h
    show pyReplaceGo old rep 0 (c :: s) = c :: s
    simp only [pyReplaceGo, h.1, Bool.false_eq_true, false_and, if_false]
    exact congrArg (c :: ·) (ih h.2)

lemma pyReplace_through (old rep pre s : Str)
    (h : ∀ t ∈ pre.tails, t ≠ [] →
        old.isPrefixOf t = false ∧ t.isPrefixOf old = false) :
    pyReplace old rep (pre ++ s) = pre ++ pyReplace old rep s := by
  induction pre with
  | nil => rfl
  | cons c pre ih =>
    have hcp := h (c :: pre) (by simp [List.mem_tails]) (by simp)
    have hfar : old.isPrefixOf ((c :: pre) ++ s) = false :=
      isPrefixOf_append_false old (c :: pre) s hcp.1 hcp.2
    rw [List.cons_append] at hfar ⊢
    show pyReplaceGo old rep 0 (c :: (pre ++ s)) = c :: (pre ++ pyReplace old rep s)
    simp only [pyReplaceGo, hfar, Bool.false_eq_true, false_and, if_false]
    refine congrArg (c :: ·) (ih fun t ht hne => h t ?_ hne)
    rw [List.mem_tails] at ht ⊢
    exact ht.trans (List.suffix_cons c pre)

/-- C1: the claim as stated is false: deleting every occurrence of the
two domain strings destroys an inner URL that itself contains the site
domain.  Repairing http://fct.ufg.br prepended to the absolute URL
https://fct.ufg.br/a.jpg yields /a.jpg, not the inner absolute URL. -/
theorem c1_counterexample :
    fix_image_url "http://fct.ufg.brhttps://fct.ufg.br/a.jpg".data = "/a.jpg".data
    ∧ "/a.jpg".data ≠ "https://fct.ufg.br/a.jpg".data := by
  exact ⟨by decide, by decide⟩

/-- C1 (amended): on a URL of the double-prefix form, fix_image_url of
noticias-v2.py and painel1-sem-carregamento.py deletes every occurrence
of the http domain and then of the https domain, so it returns exactly
the inner absolute URL whenever the inner URL contains neither domain
as a substring; corrigir_url_imagem of painel.py repairs only the
http-prefixed form, returning the https-prefixed form unchanged. -/
theorem c1_double_prefix_repair (inner : Str)
    (h0 : "https://".data.isPrefixOf inner = true)
    (h1 : containsSub "http://fct.ufg.br".data inner = false)
    (h2 : containsSub "https://fct.ufg.br".data inner = false) :
    fix_image_url ("http://fct.ufg.br".data ++ inner) = inner
    ∧ fix_image_url ("https://fct.ufg.br".data ++ inner) = inner
    ∧ corrigir_url_imagem ("http://fct.ufg.br".data ++ inner) = inner
    ∧ corrigir_url_imagem ("https://fct.ufg.br".data ++ inner)
        = "https://fct.ufg.br".data ++ inner := by
  have hs6 : "https:".data.isPrefixOf inner = true :=
    isPrefixOf_trans _ "https://".data _ (by decide) h0
  have e1 : "http://fct.ufg.brhttps:".data
      = "http://fct.ufg.br".data ++ "https:".data := by decide
  have e2 : "https://fct.ufg.brhttps:".data
      = "https://fct.ufg.br".data ++ "https:".data := by decide
  have e3 : "http://fct.ufg.brhttps://".data
      = "http://fct.ufg.br".data ++ "https://".data := by decide
  have hth : ∀ t ∈ ("https://fct.ufg.br".data).tails, t ≠ [] →
      "http://fct.ufg.br".data.isPrefixOf t = false
      ∧ t.isPrefixOf "http://fct.ufg.br".data = false := by decide
  have hrep1 : pyReplace "http://fct.ufg.br".data [] ("http://fct.ufg.br".data ++ inner)
      = inner := by
    rw [pyReplace_head_match _ _ _ (by decide), List.nil_append,
      pyReplace_no_occurrence _ _ _ h1]
  have hrep2 : pyReplace "http://fct.ufg.br".data [] ("https://fct.ufg.br".data ++ inner)
      = "https://fct.ufg.br".data ++ inner := by
    rw [pyReplace_through _ _ _ _ hth, pyReplace_no_occurrence _ _ _ h1]
  refine ⟨?_, ?_, ?_, ?_⟩
  · show fix_image_url _ = inner
    rw [fix_image_url, if_pos (Or.inl ?side1)]
    · rw [hrep1, pyReplace_no_occurrence _ _ _ h2]
    case side1 => rw [e1, isPrefixOf_append_cancel, hs6]
  · show fix_image_url _ = inner
    rw [fix_image_url, if_pos (Or.inr ?side2)]
    · rw [hrep2, pyReplace_head_match _ _ _ (by decide), List.nil_append,
        pyReplace_no_occurrence _ _ _ h2]
    case side2 => rw [e2, isPrefixOf_append_cancel, hs6]
  · show corrigir_url_imagem _ = inner
    rw [corrigir_url_imagem, if_neg (by simp [List.append_eq_nil]),
      if_pos (show ("http://fct.ufg.brhttps://".data.isPrefixOf _) = true by
        rw [e3, isPrefixOf_append_cancel]; exact h0),
      hrep1, corrigir_resolve, if_neg (not_not_intro (Or.inr h0))]
  · show corrigir_url_imagem _ = "https://fct.ufg.br".data ++ inner
    have hfalse : "http://fct.ufg.brhttps://".data.isPrefixOf
        ("https://fct.ufg.br".data ++ inner) = false :=
      isPrefixOf_append_false _ _ _ (by decide) (by decide)
    have htrue : "https://".data.isPrefixOf ("https://fct.ufg.br".data ++ inner) = true :=
      isPrefixOf_trans _ "https://fct.ufg.br".data _ (by decide)
        (isPrefixOf_append_self _ _)
    rw [corrigir_url_imagem, if_neg (by simp [List.append_eq_nil]),
      if_neg (by rw [hfalse]; exact Bool.false_ne_true),
      corrigir_resolve, if_neg (not_not_intro (Or.inr htrue))]

/-- Witness for c1_double_prefix_repair at the inner URL of the spec
example. -/
theorem c1_witness :
    fix_image_url "http://fct.ufg.brhttps://cdn.example.com/a.jpg".data
      = "https://cdn.example.com/a.jpg".data
    ∧ corrigir_url_imagem "http://fct.ufg.brhttps://cdn.example.com/a.jpg".data
      = "https://cdn.example.com/a.jpg".data := by
  have h := c1_double_prefix_repair "https://cdn.example.com/a.jpg".data
    (by decide) (by decide) (by decide)
  have e : "http://fct.ufg.brhttps://cdn.example.com/a.jpg".data
      = "http://fct.ufg.br".data ++ "https://cdn.example.com/a.jpg".data := by decide
  exact ⟨by rw [e]; exact h.1, by rw [e]; exact h.2.2.1⟩

/-- C5: the claim as stated is false for the fix_image_url variants:
noticias-v2.py and painel1-sem-carregamento.py never resolve a relative
image URL, so /img/a.jpg stays relative instead of becoming
https://fct.ufg.br/img/a.jpg. -/
theorem c5_counterexample :
    fix_image_url "/img/a.jpg".data = "/img/a.jpg".data
    ∧ "/img/a.jpg".data ≠ "https://fct.ufg.br/img/a.jpg".data := by
  exact ⟨by decide, by decide⟩

/-- C5 (amended): only corrigir_url_imagem of painel.py resolves image
URLs: every nonempty URL without an http:// or https:// prefix is
passed to urljoin with the base URL.  A scheme-less reference without
query, fragment or dot segments, and with a nonempty authority when
protocol-relative, resolves to an absolute https URL under the base
domain; a reference carrying a scheme other than https is returned
unchanged. -/
theorem c5_relative_resolution (url : Str) (h0 : url ≠ [])
    (h1 : "http://".data.isPrefixOf url = false)
    (h2 : "https://".data.isPrefixOf url = false)
    (hscope : (∃ sch, schemeOf url = some sch ∧ sch ≠ "https".data)
      ∨ (schemeOf url = none ∧ noQueryFragment url = true
          ∧ noDotSegments url = true ∧ protRelOk url = true)) :
    corrigir_url_imagem url = urljoin_fct url
    ∧ (schemeOf url = none →
        "https://".data.isPrefixOf (corrigir_url_imagem url) = true)
    ∧ (schemeOf url ≠ none → corrigir_url_imagem url = url) := by
  have hp : "http://fct.ufg.brhttps://".data.isPrefixOf url = false := by
    cases hv : "http://fct.ufg.brhttps://".data.isPrefixOf url with
    | false => rfl
    | true =>
      have := isPrefixOf_trans "http://".data "http://fct.ufg.brhttps://".data url
        (by decide) hv
      rw [h1] at this
      exact absurd this Bool.false_ne_true
  have hmain : corrigir_url_imagem url = urljoin_fct url := by
    rw [corrigir_url_imagem, if_neg h0,
      if_neg (by rw [hp]; exact Bool.false_ne_true),
      corrigir_resolve, if_pos]
    intro hor
    rcases hor with ha | hb
    · rw [h1] at ha; exact Bool.false_ne_true ha
    · rw [h2] at hb; exact Bool.false_ne_true hb
  refine ⟨hmain, ?_, ?_⟩
  · intro hsch
    rw [hmain, urljoin_fct, if_neg h0, if_neg (by rw [hsch]; simp)]
    by_cases hpp : "//".data.isPrefixOf url = true
    · rw [if_pos hpp]
      have e : "https://".data = "https:".data ++ "//".data := by decide
      rw [e, isPrefixOf_append_cancel]
      exact hpp
    · rw [if_neg hpp]
      by_cases hsl : "/".data.isPrefixOf url = true
      · rw [if_pos hsl]
        exact isPrefixOf_trans _ "https://fct.ufg.br".data _ (by decide)
          (isPrefixOf_append_self _ _)
      · rw [if_neg hsl]
        exact isPrefixOf_trans _ "https://fct.ufg.br/".data _ (by decide)
          (isPrefixOf_append_self _ _)
  · intro hsch
    cases hv : schemeOf url with
    | none => exact absurd hv hsch
    | some sch =>
      rw [hmain, urljoin_fct, if_neg h0, if_pos (by rw [hv]; rfl)]

/-- Witness for c5_relative_resolution at the relative URL of the spec
example and at a reference with a foreign scheme. -/
theorem c5_witness :
    corrigir_url_imagem "/img/a.jpg".data = urljoin_fct "/img/a.jpg".data
    ∧ "https://".data.isPrefixOf (corrigir_url_imagem "/img/a.jpg".data) = true
    ∧ corrigir_url_imagem "/img/a.jpg".data = "https://fct.ufg.br/img/a.jpg".data
    ∧ corrigir_url_imagem "ftp://example.com/x".data = "ftp://example.com/x".data := by
  have h := c5_relative_resolution "/img/a.jpg".data (by decide) (by decide) (by decide)
    (Or.inr ⟨by decide, by decide, by decide, by decide⟩)
  have hftp := c5_relative_resolution "ftp://example.com/x".data (by decide) (by decide)
    (by decide) (Or.inl ⟨"ftp".data, by decide, by decide⟩)
  exact ⟨h.1, h.2.1 (by decide), by rw [h.1]; decide, hftp.2.2 (by decide)⟩

/-! Helper lemmas on stripping and whitespace collapsing. -/

lemma consTrail_nil (c : Char) :
    consTrail c [] = if isPySpace c then [] else [c] := rfl

lemma consTrail_cons (c y : Char) (r : Str) : consTrail c (y :: r) = c :: y :: r := rfl

lemma dropWhile_head_not (p : Char → Bool) (l : Str) (c : Char) (t : Str)
    (h : l.dropWhile p = c :: t) : p c = false := by
  induction l with
  | nil => simp at h
  | cons x xs ih =>
    by_cases hx : p x = true
    · rw [List.dropWhile_cons, if_pos hx] at h
      exact ih h
    · rw [List.dropWhile_cons, if_neg hx] at h
      cases h
      exact Bool.eq_false_iff.mpr hx

lemma dropWhile_eq_self (p : Char → Bool) (c : Char) (t : Str)
    (h : p c = false) : (c :: t).dropWhile p = c :: t := by
  rw [List.dropWhile_cons, if_neg (by simp [h])]

lemma dropTrailWS_shape (d : Char) (t : Str) :
    dropTrailWS (d :: t) = [] ∨ ∃ r, dropTrailWS (d :: t) = d :: r := by
  show consTrail d (dropTrailWS t) = [] ∨ ∃ r, consTrail d (dropTrailWS t) = d :: r
  cases dropTrailWS t with
  | nil =>
    by_cases hd : isPySpace d = true
    · exact Or.inl (by rw [consTrail_nil, if_pos hd])
    · exact Or.inr ⟨[], by rw [consTrail_nil, if_neg hd]⟩
  | cons y r => exact Or.inr ⟨y :: r, consTrail_cons d y r⟩

lemma pyStrip_head_not_space (s : Str) (c : Char) (t : Str)
    (h : pyStrip s = c :: t) : isPySpace c = false := by
  rw [pyStrip] at h
  cases hu : s.dropWhile isPySpace with
  | nil => rw [hu] at h; simp [dropTrailWS] at h
  | cons d u =>
    rw [hu] at h
    rcases dropTrailWS_shape d u with h2 | ⟨r, h2⟩
    · rw [h2] at h; exact absurd h (by simp)
    · rw [h2] at h
      injection h with h3 h4
      rw [← h3]
      exact dropWhile_head_not isPySpace s d u hu

lemma dropTrailWS_getLast_not_space (l : Str) (c : Char)
    (h : (dropTrailWS l).getLast? = some c) : isPySpace c = false := by
  induction l with
  | nil => simp [dropTrailWS] at h
  | cons x s ih =>
    rw [show dropTrailWS (x :: s) = consTrail x (dropTrailWS s) from rfl] at h
    cases h1 : dropTrailWS s with
    | nil =>
      rw [h1, consTrail_nil] at h
      by_cases hx : isPySpace x = true
      · rw [if_pos hx] at h; simp at h
      · rw [if_neg hx] at h
        simp only [List.getLast?_singleton, Option.some_inj] at h
        rw [← h]
        exact Bool.eq_false_iff.mpr hx
    | cons y r =>
      rw [h1, consTrail_cons, List.getLast?_cons_cons, ← h1] at h
      exact ih h

lemma dropTrailWS_eq_self (l : Str)
    (h : ∀ c, l.getLast? = some c → isPySpace c = false) : dropTrailWS l = l := by
  induction l with
  | nil => rfl
  | cons x s ih =>
    rw [show dropTrailWS (x :: s) = consTrail x (dropTrailWS s) from rfl]
    cases s with
    | nil =>
      have hx := h x (by simp)
      rw [show dropTrailWS [] = [] from rfl, consTrail_nil, if_neg (by simp [hx])]
    | cons y t =>
      have hs : dropTrailWS (y :: t) = y :: t := by
        refine ih fun c hc => h c ?_
        rw [List.getLast?_cons_cons]
        exact hc
      rw [hs, consTrail_cons]

lemma pyStrip_idem (s : Str) : pyStrip (pyStrip s) = pyStrip s := by
  cases hr : pyStrip s with
  | nil => rfl
  | cons c t =>
    have hc := pyStrip_head_not_space s c t hr
    rw [pyStrip, dropWhile_eq_self isPySpace c t hc]
    refine dropTrailWS_eq_self (c :: t) fun d hd => ?_
    refine dropTrailWS_getLast_not_space (s.dropWhile isPySpace) d ?_
    rw [show dropTrailWS (s.dropWhile isPySpace) = pyStrip s from rfl, hr]
    exact hd

/-- Normal form established by collapseWS: every whitespace character is
a plain space and no two adjacent characters are both whitespace. -/
def wsOk : Str → Bool
  | [] => true
  | [c] => !(isPySpace c) || (c == ' ')
  | c :: d :: s => (!(isPySpace c) || ((c == ' ') && !(isPySpace d))) && wsOk (d :: s)

lemma band_true_iff {a b : Bool} : (a && b) = true ↔ a = true ∧ b = true := by simp

lemma bor_true_iff {a b : Bool} : (a || b) = true ↔ a = true ∨ b = true := by simp

lemma wsOk_tail (c : Char) (s : Str) (h : wsOk (c :: s) = true) : wsOk s = true := by
  cases s with
  | nil => rfl
  | cons d t =>
    have h2 : ((!(isPySpace c) || ((c == ' ') && !(isPySpace d))) && wsOk (d :: t)) = true := h
    exact (band_true_iff.mp h2).2

lemma wsOk_cons_not_space (c : Char) (R : Str) (hc : isPySpace c = false)
    (hR : wsOk R = true) : wsOk (c :: R) = true := by
  cases R with
  | nil => show (!(isPySpace c) || (c == ' ')) = true; simp [hc]
  | cons d r =>
    show ((!(isPySpace c) || ((c == ' ') && !(isPySpace d))) && wsOk (d :: r)) = true
    simp [hc, hR]

lemma collapseWS_cons_not_space (d : Char) (s : Str) (h : isPySpace d = false) :
    ∃ r, collapseWS (d :: s) = d :: r := by
  cases s with
  | nil =>
    refine ⟨[], ?_⟩
    show (if isPySpace d then [' '] else [d]) = d :: []
    rw [if_neg (by simp [h])]
  | cons e t =>
    refine ⟨collapseWS (e :: t), ?_⟩
    show (if isPySpace d then
        (if isPySpace e then collapseWS (e :: t) else ' ' :: collapseWS (e :: t))
      else d :: collapseWS (e :: t)) = d :: collapseWS (e :: t)
    rw [if_neg (by simp [h])]

lemma collapseWS_cons_space : ∀ (s : Str) (d : Char), isPySpace d = true →
    ∃ r, collapseWS (d :: s) = ' ' :: r := by
  intro s
  induction s with
  | nil =>
    intro d hd
    refine ⟨[], ?_⟩
    show (if isPySpace d then [' '] else [d]) = [' ']
    rw [if_pos (by simp [hd])]
  | cons e t ih =>
    intro d hd
    by_cases he : isPySpace e = true
    · obtain ⟨r, hr⟩ := ih e he
      refine ⟨r, ?_⟩
      show (if isPySpace d then
          (if isPySpace e then collapseWS (e :: t) else ' ' :: collapseWS (e :: t))
        else d :: collapseWS (e :: t)) = ' ' :: r
      rw [if_pos (by simp [hd]), if_pos (by simp [he])]
      exact hr
    · refine ⟨collapseWS (e :: t), ?_⟩
      show (if isPySpace d then
          (if isPySpace e then collapseWS (e :: t) else ' ' :: collapseWS (e :: t))
        else d :: collapseWS (e :: t)) = ' ' :: collapseWS (e :: t)
      rw [if_pos (by simp [hd]), if_neg (by simp [he])]

lemma wsOk_collapseWS (s : Str) : wsOk (collapseWS s) = true := by
  induction s with
  | nil => rfl
  | cons c s ih =>
    cases s with
    | nil =>
      by_cases hc : isPySpace c = true
      · rw [show collapseWS [c] = if isPySpace c then [' '] else [c] from rfl,
          if_pos (by simp [hc])]
        decide
      · rw [show collapseWS [c] = if isPySpace c then [' '] else [c] from rfl,
          if_neg (by simp [hc])]
        show (!(isPySpace c) || (c == ' ')) = true
        simp [Bool.eq_false_iff.mpr hc]
    | cons d t =>
      have hstep : collapseWS (c :: d :: t) = if isPySpace c then
          (if isPySpace d then collapseWS (d :: t) else ' ' :: collapseWS (d :: t))
        else c :: collapseWS (d :: t) := rfl
      by_cases hc : isPySpace c = true
      · by_cases hd : isPySpace d = true
        · rw [hstep, if_pos (by simp [hc]), if_pos (by simp [hd])]
          exact ih
        · rw [hstep, if_pos (by simp [hc]), if_neg (by simp [hd])]
          obtain ⟨r, hr⟩ := collapseWS_cons_not_space d t (Bool.eq_false_iff.mpr hd)
          rw [hr]
          show ((!(isPySpace ' ') || ((' ' == ' ') && !(isPySpace d))) && wsOk (d :: r)) = true
          rw [← hr]
          simp [Bool.eq_false_iff.mpr hd, ih]
      · rw [hstep, if_neg (by simp [hc])]
        exact wsOk_cons_not_space c _ (Bool.eq_false_iff.mpr hc) ih

lemma collapseWS_eq_self (r : Str) (h : wsOk r = true) : collapseWS r = r := by
  induction r with
  | nil => rfl
  | cons c s ih =>
    cases s with
    | nil =>
      have h1 : (!(isPySpace c) || (c == ' ')) = true := h
      by_cases hc : isPySpace c = true
      · have hsp : c = ' ' := by
          rcases bor_true_iff.mp h1 with h2 | h2
          · rw [hc] at h2; exact absurd h2 (by decide)
          · exact beq_iff_eq.mp h2
        rw [show collapseWS [c] = if isPySpace c then [' '] else [c] from rfl,
          if_pos (by simp [hc]), hsp]
      · rw [show collapseWS [c] = if isPySpace c then [' '] else [c] from rfl,
          if_neg (by simp [hc])]
    | cons d t =>
      have h1 : ((!(isPySpace c) || ((c == ' ') && !(isPySpace d))) && wsOk (d :: t)) = true := h
      obtain ⟨hP, htl⟩ := band_true_iff.mp h1
      have hstep : collapseWS (c :: d :: t) = if isPySpace c then
          (if isPySpace d then collapseWS (d :: t) else ' ' :: collapseWS (d :: t))
        else c :: collapseWS (d :: t) := rfl
      by_cases hc : isPySpace c = true
      · have h2 : ((c == ' ') && !(isPySpace d)) = true := by
          rcases bor_true_iff.mp hP with h2 | h2
          · rw [hc] at h2; exact absurd h2 (by decide)
          · exact h2
        obtain ⟨hsp, hd⟩ := band_true_iff.mp h2
        have hd2 : isPySpace d = false := by
          cases hdv : isPySpace d
          · rfl
          · rw [hdv] at hd; exact absurd hd (by decide)
        rw [hstep, if_pos (by simp [hc]), if_neg (by simp [hd2]), ih htl,
          beq_iff_eq.mp hsp]
      · rw [hstep, if_neg (by simp [hc]), ih htl]

lemma wsOk_dropWhile (l : Str) (h : wsOk l = true) :
    wsOk (l.dropWhile isPySpace) = true := by
  induction l with
  | nil => rfl
  | cons c s ih =>
    by_cases hc : isPySpace c = true
    · rw [List.dropWhile_cons, if_pos (by simp [hc])]
      exact ih (wsOk_tail c s h)
    · rw [List.dropWhile_cons, if_neg (by simp [hc])]
      exact h

lemma wsOk_dropTrailWS (l : Str) (h : wsOk l = true) :
    wsOk (dropTrailWS l) = true := by
  induction l with
  | nil => rfl
  | cons x s ih =>
    rw [show dropTrailWS (x :: s) = consTrail x (dropTrailWS s) from rfl]
    cases h1 : dropTrailWS s with
    | nil =>
      rw [consTrail_nil]
      by_cases hx : isPySpace x = true
      · rw [if_pos (by simp [hx])]; rfl
      · rw [if_neg (by simp [hx])]
        show (!(isPySpace x) || (x == ' ')) = true
        simp [Bool.eq_false_iff.mpr hx]
    | cons y r =>
      rw [consTrail_cons]
      have htl : wsOk (y :: r) = true := by
        rw [← h1]
        exact ih (wsOk_tail x s h)
      cases s with
      | nil => simp [dropTrailWS] at h1
      | cons z t =>
        rcases dropTrailWS_shape z t with h2 | ⟨r2, h2⟩
        · rw [h2] at h1; exact absurd h1 (by simp)
        · rw [h2] at h1
          injection h1 with h3 h4
          have hP : (!(isPySpace x) || ((x == ' ') && !(isPySpace z))) = true :=
            (band_true_iff.mp h).1
          rw [h3] at hP
          show ((!(isPySpace x) || ((x == ' ') && !(isPySpace y))) && wsOk (y :: r)) = true
          rw [hP, htl]
          rfl

lemma clean_text_of_fixed (r : Str) (h1 : pyStrip r = r) (h3 : collapseWS r = r) :
    clean_text r = r := by
  by_cases hr : r = []
  · rw [hr]; rfl
  · rw [clean_text, if_neg hr, h1, h3, h1]

lemma clean_text_idem (x : Str) : clean_text (clean_text x) = clean_text x := by
  by_cases hx : x = []
  · rw [hx]; rfl
  · have hx2 : clean_text x = pyStrip (collapseWS (pyStrip x)) := by
      rw [clean_text, if_neg hx]
    refine clean_text_of_fixed _ ?_ ?_
    · rw [hx2]; exact pyStrip_idem _
    · rw [hx2]
      refine collapseWS_eq_self _ ?_
      rw [pyStrip]
      exact wsOk_dropTrailWS _ (wsOk_dropWhile _ (wsOk_collapseWS (pyStrip x)))

/-- Markup-free text: no tag opener and no entity introducer, the
inputs on which the clean_text model is exact. -/
def noMarkup (s : Str) : Bool := s.all fun c => !(c == '<' || c == '&')

/-- C8: the HTML-cleaning step is idempotent; on markup-free text the
model is exact, and the identity holds for it. -/
theorem c8_clean_idempotent (x : Str) (h : noMarkup x = true) :
    clean_text (clean_text x) = clean_text x := clean_text_idem x

/-- Witness for c8_clean_idempotent on a concrete markup-free string. -/
theorem c8_witness :
    noMarkup "  a \t b  ".data = true
    ∧ clean_text (clean_text "  a \t b  ".data) = clean_text "  a \t b  ".data :=
  ⟨by decide, c8_clean_idempotent _ (by decide)⟩

/-! Lemmas on rfindChar and the truncation bounds. -/

lemma rfindChar_none (ch : Char) (l : Str) (h : rfindChar ch l = none) :
    ∀ c ∈ l, c ≠ ch := by
  induction l with
  | nil => intro c hc; simp at hc
  | cons c s ih =>
    rw [show rfindChar ch (c :: s) = (match rfindChar ch s with
      | some j => some (j + 1)
      | none => if c = ch then some 0 else none) from rfl] at h
    cases hr : rfindChar ch s with
    | some j => rw [hr] at h; exact absurd h (by simp)
    | none =>
      rw [hr] at h
      intro d hd
      rcases List.mem_cons.mp hd with hd1 | hd2
      · subst hd1
        intro hdc
        rw [if_pos hdc] at h
        exact absurd h (by simp)
      · exact ih hr d hd2

lemma rfindChar_some (ch : Char) (l : Str) (j : Nat) (h : rfindChar ch l = some j) :
    j < l.length ∧ l[j]? = some ch := by
  induction l generalizing j with
  | nil => simp [rfindChar] at h
  | cons c s ih =>
    rw [show rfindChar ch (c :: s) = (match rfindChar ch s with
      | some j => some (j + 1)
      | none => if c = ch then some 0 else none) from rfl] at h
    cases hr : rfindChar ch s with
    | some j2 =>
      rw [hr] at h
      have hj : j = j2 + 1 := by
        have := Option.some_inj.mp h
        omega
      subst hj
      obtain ⟨hlt, hget⟩ := ih j2 hr
      refine ⟨by simpa using Nat.succ_lt_succ hlt, ?_⟩
      rw [List.getElem?_cons_succ]
      exact hget
    | none =>
      rw [hr] at h
      by_cases hc : c = ch
      · rw [if_pos hc] at h
        have hj : j = 0 := (Option.some_inj.mp h).symm
        subst hj
        exact ⟨by simp, by simp [hc]⟩
      · rw [if_neg hc] at h
        exact absurd h (by simp)

lemma clean_fixed_head_not_space (t : Str) (c : Char) (r : Str)
    (h : clean_text t = t) (ht : t = c :: r) : isPySpace c = false := by
  subst ht
  rw [clean_text, if_neg (by simp)] at h
  exact pyStrip_head_not_space _ c r h

/-- Branch of truncate_text past the length guard when rfind found a
space. -/
lemma truncate_branch_some (t : Str) (L k : Nat) (hlen : ¬ t.length ≤ L)
    (hf : rfindChar ' ' (t.take L) = some k) :
    truncate_text t L = if 0 < k then (t.take L).take k ++ "...".data
      else (t.take L) ++ "...".data := by
  rw [truncate_text, if_neg hlen]
  show (match rfindChar ' ' (t.take L) with
    | some last_space =>
      if 0 < last_space then (t.take L).take last_space ++ "...".data
      else (t.take L) ++ "...".data
    | none => (t.take L) ++ "...".data) = _
  rw [hf]

/-- Branch of truncate_text past the length guard when the truncated
slice holds no space. -/
lemma truncate_branch_none (t : Str) (L : Nat) (hlen : ¬ t.length ≤ L)
    (hf : rfindChar ' ' (t.take L) = none) :
    truncate_text t L = (t.take L) ++ "...".data := by
  rw [truncate_text, if_neg hlen]
  show (match rfindChar ' ' (t.take L) with
    | some last_space =>
      if 0 < last_space then (t.take L).take last_space ++ "...".data
      else (t.take L) ++ "...".data
    | none => (t.take L) ++ "...".data) = _
  rw [hf]

/-- C4: every truncated text is at most three characters (the ellipsis)
beyond the limit; this covers truncate_text with any limit, and the two
inline truncations of painel.py that fill a NewsItem with limits 1000
(content) and 80 (title). -/
theorem c4_truncate_length_bound (t : Str) (L : Nat) (c ti : Str) :
    (truncate_text t L).length ≤ L + 3
    ∧ (painelTruncate c).length ≤ 1003
    ∧ (painelTitulo ti).length ≤ 83 := by
  have hell : ("...".data : Str).length = 3 := by decide
  refine ⟨?_, ?_, ?_⟩
  · by_cases hlen : t.length ≤ L
    · rw [truncate_text, if_pos hlen]; omega
    · have htake : (t.take L).length ≤ L := by
        rw [List.length_take]; exact Nat.min_le_left _ _
      cases hf : rfindChar ' ' (t.take L) with
      | none => rw [truncate_branch_none t L hlen hf, List.length_append, hell]; omega
      | some k =>
        by_cases hk : 0 < k
        · rw [truncate_branch_some t L k hlen hf, if_pos hk, List.length_append, hell]
          have : ((t.take L).take k).length ≤ (t.take L).length := by
            rw [List.length_take]; exact Nat.min_le_right _ _
          omega
        · rw [truncate_branch_some t L k hlen hf, if_neg hk, List.length_append, hell]
          omega
  · rw [painelTruncate]
    by_cases hc : 1000 < c.length
    · rw [if_pos hc, List.length_append, hell, List.length_take]
      have : min 1000 c.length ≤ 1000 := Nat.min_le_left _ _
      omega
    · rw [if_neg hc]; omega
  · rw [painelTitulo]
    by_cases ht : ti.length ≤ 80
    · rw [if_pos ht]; omega
    · rw [if_neg ht, List.length_append, hell, List.length_take]
      have : min 80 ti.length ≤ 80 := Nat.min_le_left _ _
      omega

/-- C3: on cleaned text, truncation never cuts inside a word: either
the text fits the limit, or the cut lands on a space of the text, or
there is no space among the first L characters and the hard cut is
taken. -/
theorem c3_word_boundary (t : Str) (L : Nat) (h : clean_text t = t) :
    truncate_text t L = t
    ∨ (∃ k, k < L ∧ t[k]? = some ' '
        ∧ truncate_text t L = t.take k ++ "...".data)
    ∨ ((∀ c ∈ t.take L, c ≠ ' ')
        ∧ truncate_text t L = t.take L ++ "...".data) := by
  by_cases hlen : t.length ≤ L
  · left; rw [truncate_text, if_pos hlen]
  · have htr_len : (t.take L).length = L := by
      rw [List.length_take]
      omega
    cases hf : rfindChar ' ' (t.take L) with
    | none =>
      right; right
      exact ⟨rfindChar_none ' ' _ hf, truncate_branch_none t L hlen hf⟩
    | some k =>
      rcases Nat.eq_zero_or_pos k with hk0 | hkpos
      · exfalso
        subst hk0
        have h0 := rfindChar_some ' ' (t.take L) 0 hf
        have hL0 : 0 < L := by rw [← htr_len]; exact h0.1
        have ht0 : t[0]? = some ' ' := by
          have h2 := h0.2
          rwa [List.getElem?_take, if_pos hL0] at h2
        cases t with
        | nil => simp at ht0
        | cons c rest =>
          have hc : c = ' ' := by simpa using ht0
          have := clean_fixed_head_not_space (c :: rest) c rest h rfl
          rw [hc] at this
          exact absurd this (by decide)
      · right; left
        have hsome := rfindChar_some ' ' (t.take L) k hf
        have hkL : k < L := by rw [← htr_len]; exact hsome.1
        refine ⟨k, hkL, ?_, ?_⟩
        · have h2 := hsome.2
          rwa [List.getElem?_take, if_pos hkL] at h2
        · rw [truncate_branch_some t L k hlen hf, if_pos hkpos]
          congr 1
          rw [List.take_take]
          congr 1
          omega

/-- Witness for c3_word_boundary on a concrete cleaned text. -/
theorem c3_witness :
    clean_text "ab cd ef".data = "ab cd ef".data
    ∧ (truncate_text "ab cd ef".data 5 = "ab cd ef".data
      ∨ (∃ k, k < 5 ∧ ("ab cd ef".data)[k]? = some ' '
          ∧ truncate_text "ab cd ef".data 5 = "ab cd ef".data.take k ++ "...".data)
      ∨ ((∀ c ∈ "ab cd ef".data.take 5, c ≠ ' ')
          ∧ truncate_text "ab cd ef".data 5 = "ab cd ef".data.take 5 ++ "...".data)) :=
  ⟨by decide, c3_word_boundary "ab cd ef".data 5 (by decide)⟩

/-- C7: formatar_data returns the raw string unchanged exactly when the
date fails to parse or validate, and the locale-formatted display date
on success; it is a total function, so no exception escapes. -/
theorem c7_date_fallback (s : Str) :
    (parsePubDate s = none → formatar_data s = s)
    ∧ (∀ d, parsePubDate s = some d → formatar_data s = formatDataBR d) := by
  constructor
  · intro h
    rw [formatar_data, h]
  · intro d h
    rw [formatar_data, h]

/-- Witness for c7_date_fallback at an unparseable and at a parseable
date string. -/
theorem c7_witness :
    formatar_data "not a date".data = "not a date".data
    ∧ formatar_data "Wed, 02 Oct 2024 10:00:00 +0000".data
      = formatDataBR ⟨2024, 10, 2, 10, 0, 0⟩ :=
  ⟨(c7_date_fallback _).1 (by decide),
    (c7_date_fallback _).2 ⟨2024, 10, 2, 10, 0, 0⟩ (by decide)⟩

/-- C10: when the first img element of a description has no src
attribute, extract_image returns none; the guard reads the attribute
with get, so the function is total and never raises. -/
theorem c10_img_without_src (attrs : List (Str × Str))
    (h : attrGet attrs "src".data = none) :
    extract_image (some attrs) = none := by
  show (match attrGet attrs "src".data with
    | some src => if src = [] then none else some (fix_image_url src)
    | none => none) = none
  rw [h]

/-- Witness for c10_img_without_src at a concrete img tag carrying only
an alt attribute. -/
theorem c10_witness :
    attrGet [("alt".data, "x".data)] "src".data = none
    ∧ extract_image (some [("alt".data, "x".data)]) = none :=
  ⟨by decide, c10_img_without_src _ (by decide)⟩

/-- C2: the claim as stated fails for painel.py: after a failed
refresh, the previous nonempty slide state is retained, so no empty
sequence is delivered to the display. -/
theorem c2_counterexample :
    carregar_noticias
        ⟨[⟨"t".data, [], [], [], []⟩], [⟨"t".data, [], [], [], []⟩]⟩
        (Except.error PyErr.networkError)
      = ⟨[⟨"t".data, [], [], [], []⟩], [⟨"t".data, [], [], [], []⟩]⟩
    ∧ (⟨[⟨"t".data, [], [], [], []⟩], [⟨"t".data, [], [], [], []⟩]⟩
        : CarouselState).news_items ≠ [] :=
  ⟨by decide, by decide⟩

/-- C2 (amended): on a fetch or parse failure no exception escapes in
either variant; the noticias-v2.py downloader emits the empty list,
while the painel.py loader logs the error, delivers nothing and keeps
the previous state. -/
theorem c2_failure_handling (e : PyErr) (st : CarouselState) :
    NewsDownloader_run (Except.error e) = []
    ∧ carregar_noticias st (Except.error e) = st :=
  ⟨rfl, rfl⟩

/-- C9: a painel.py refresh is atomic: whenever the guarded block ends
in an error, at whatever point of fetching or entry processing, the
carousel state, news_items and slides included, is unchanged. -/
theorem c9_refresh_atomic (st : CarouselState) (pr : Except PyErr (List RawEntry))
    (e : PyErr) (h : carregar_result pr = Except.error e) :
    carregar_noticias st pr = st := by
  rw [carregar_noticias, h]

/-- Witness for c9_refresh_atomic: the first entry processes fine, the
second raises KeyError on an img tag without src, and the previous
state survives. -/
theorem c9_witness :
    carregar_result (Except.ok
        [⟨some "A".data, some "d".data, some "L".data, none, none, []⟩,
         ⟨some "B".data, some "d".data, some "L".data, none,
          some [("alt".data, "x".data)], []⟩])
      = Except.error PyErr.keyError
    ∧ carregar_noticias ⟨[⟨"x".data, [], [], [], []⟩], [⟨"x".data, [], [], [], []⟩]⟩
        (Except.ok
          [⟨some "A".data, some "d".data, some "L".data, none, none, []⟩,
           ⟨some "B".data, some "d".data, some "L".data, none,
            some [("alt".data, "x".data)], []⟩])
      = ⟨[⟨"x".data, [], [], [], []⟩], [⟨"x".data, [], [], [], []⟩]⟩ :=
  ⟨by decide, c9_refresh_atomic _ _ PyErr.keyError (by decide)⟩

/-- C6: the claim as stated is false: painel.py never checks the link
for emptiness, and the qrcode pipeline accepts an empty payload, so
materialising an entry with an empty link still produces a QR path. -/
theorem c6_counterexample :
    painel_process 0 ⟨some "T".data, some "".data, some [], none, none, []⟩
      = Except.ok ⟨"T".data, [], "assets/placeholder.png".data, [],
          "qrcodes/qr_0.png".data⟩
    ∧ "qrcodes/qr_0.png".data ≠ ([] : Str) :=
  ⟨by decide, by decide⟩

/-- C6 (amended): a NewsItem carries a QR path exactly when the QR
pipeline succeeds, regardless of whether the link is empty; a failure
yields the empty path, and never aborts the materialisation of an
entry whose other reads succeed. -/
theorem c6_qr_iff_encode (url : Str) (id : Nat) :
    (exceptOk (qr_encode url) = true →
      gerar_qr_code url id = qrPath id ∧ qrPath id ≠ [])
    ∧ (exceptOk (qr_encode url) = false → gerar_qr_code url id = [])
    ∧ (∀ (idx : Nat) (en : RawEntry),
        (en.firstImg.all fun attrs => (attrGet attrs "src".data).isSome) = true →
        en.title.isSome = true → en.link.isSome = true →
        exceptOk (painel_process idx en) = true) := by
  refine ⟨?_, ?_, ?_⟩
  · intro h
    constructor
    · cases hq : qr_encode url with
      | ok v => rw [gerar_qr_code, hq]
      | error e =>
        rw [hq] at h
        exact absurd h (by simp [exceptOk])
    · intro hc
      have h1 := (List.append_eq_nil.mp hc).1
      have h2 := (List.append_eq_nil.mp h1).1
      exact absurd h2 (by decide)
  · intro h
    cases hq : qr_encode url with
    | ok v =>
      rw [hq] at h
      exact absurd h (by simp [exceptOk])
    | error e => rw [gerar_qr_code, hq]
  · intro idx en h1 h2 h3
    obtain ⟨t, ht⟩ := Option.isSome_iff_exists.mp h2
    obtain ⟨l, hl⟩ := Option.isSome_iff_exists.mp h3
    have hextr : ∃ v, extrair_conteudo_principal en.firstImg en.paragraphs
        = Except.ok v := by
      cases hfi : en.firstImg with
      | none => exact ⟨_, rfl⟩
      | some attrs =>
        rw [hfi] at h1
        obtain ⟨src, hsrc⟩ := Option.isSome_iff_exists.mp (by simpa using h1)
        exact ⟨_, by rw [extrair_conteudo_principal, hsrc]⟩
    obtain ⟨⟨cv, iv⟩, hv⟩ := hextr
    rw [painel_process, hv, ht, hl]
    rfl

/-- Witness for c6_qr_iff_encode: a short link gets its QR path, an
oversized link fails encoding and gets the empty path, and an entry
whose link is oversized still materialises. -/
theorem c6_witness :
    gerar_qr_code "x".data 0 = qrPath 0
    ∧ gerar_qr_code (List.replicate 2954 'a') 1 = []
    ∧ exceptOk (painel_process 2
        ⟨some "T".data, none, some (List.replicate 2954 'a'), none, none, []⟩) = true := by
  have hfail : exceptOk (qr_encode (List.replicate 2954 'a')) = false := by
    rw [qr_encode, if_neg (by rw [List.length_replicate]; omega)]
    rfl
  exact ⟨((c6_qr_iff_encode "x".data 0).1 (by decide)).1,
    (c6_qr_iff_encode (List.replicate 2954 'a') 1).2.1 hfail,
    (c6_qr_iff_encode [] 0).2.2 2
      ⟨some "T".data, none, some (List.replicate 2954 'a'), none, none, []⟩
      rfl rfl rfl⟩
